import Mathlib

/-!
Verification development for the libRadtran disort Python runner
(`run_libradtran_extended.py`).

The embedding models the output parsing and input-deck rewriting of the
script.  Numeric values are kept as their literal whitespace-separated
tokens (lists of characters): every claim under study concerns the
routing, ordering and shape of values, never floating-point arithmetic,
and `np.genfromtxt` on a single text line is exactly a whitespace split
followed by a per-token conversion.  A token therefore stands for the
float the source would decode from it.

Python runtime failures (IndexError from out-of-range indexing,
UnboundLocalError from a variable that was never assigned, ValueError
from a mismatched `np.append`) are modelled as `none` / `RunResult.crash`.

The external `uvspec` subprocess is modelled by a `ProcResult` value
(exit status, captured standard output, captured standard error) handed
to `run_libradtran`; in the batch runner the process is an oracle
function from the final input string to a `ProcResult`.
-/

/-- A literal numeric token, as the characters `np.genfromtxt` would decode. -/
abbrev Tok := List Char

/-- One line of solver output, as characters. -/
abbrev Line := List Char

/-- Whitespace for `np.genfromtxt`'s default delimiter on one line. -/
def isWS (c : Char) : Bool := c = ' ' || c = '\t'

/-- Helper for `splitWS`: accumulates the current token (reversed). -/
def splitWSAux : List Char → List Char → List (List Char)
  | [], cur => if cur = [] then [] else [cur.reverse]
  | c :: rest, cur =>
    if isWS c then
      if cur = [] then splitWSAux rest [] else cur.reverse :: splitWSAux rest []
    else splitWSAux rest (c :: cur)

/-- Split one line into its whitespace-separated tokens, as
`np.genfromtxt(StringIO(line))` tokenises a single row. -/
def splitWS (l : List Char) : List (List Char) := splitWSAux l []

/-- Python `s.split("\n")`: split on every newline, never empty. -/
def pySplitLines : List Char → List (List Char)
  | [] => [[]]
  | c :: rest =>
    if c = '\n' then [] :: pySplitLines rest
    else
      match pySplitLines rest with
      | [] => [[c]]
      | l :: ls => (c :: l) :: ls

/-- The quintuple returned by the three block decoders of the source
(`outdata_basic, umu, phi, u0u, uu`). -/
structure ParsedBlock where
  basic : List Tok
  umu : Option (List Tok)
  phi : Option (List Tok)
  u0u : Option (List Tok)
  uu : Option (List (List Tok))
deriving DecidableEq, Repr

/-- Embeds `output_format_1_parser` of the source: decode the single
line, leave `umu`, `phi`, `u0u`, `uu` as `None`. -/
def output_format_1_decode (l : Line) : ParsedBlock :=
  { basic := splitWS l, umu := none, phi := none, u0u := none, uu := none }

/-- The `for i, val in enumerate(vals[1:])` loop of
`output_format_2_parser`.  `i` is the enumeration index (it advances on
skipped empty lines too); `acc` is `some (umu, u0u)` once those local
variables have been assigned.  Outer `none`: a Python runtime error
(IndexError on a short row, UnboundLocalError in the `else` branch). -/
def of2Loop : Nat → Option (List Tok × List Tok) → List Line →
    Option (Option (List Tok × List Tok))
  | _, acc, [] => some acc
  | i, acc, l :: rest =>
    if l = [] then of2Loop (i + 1) acc rest
    else
      match splitWS l with
      | t0 :: t1 :: _ =>
        if i = 0 then of2Loop (i + 1) (some ([t0], [t1])) rest
        else
          match acc with
          | some (umu, u0u) =>
            of2Loop (i + 1) (some (umu ++ [t0], u0u ++ [t1])) rest
          | none => none
      | _ => none

/-- Embeds `output_format_2_parser`: first line is the basic record,
remaining lines accumulate first column into `umu` and second into
`u0u`; `phi` and `uu` stay `None`.  `none` models a Python error
(empty `vals`, a short row, or `umu` never assigned before use). -/
def output_format_2_decode (vals : List Line) : Option ParsedBlock :=
  match vals with
  | [] => none
  | v0 :: rest =>
    match of2Loop 0 none rest with
    | some (some (umu, u0u)) =>
      some { basic := splitWS v0, umu := some umu, phi := none,
             u0u := some u0u, uu := none }
    | _ => none

/-- The `for i, val in enumerate(vals[2:])` loop of
`output_format_3_parser`.  The accumulator holds `(umu, u0u, uu)` where
`uu` is the 2-D array as a list of rows; the source grows `uu` one
column per viewing-angle line (`np.append(..., axis=1)`), which demands
the new column's length match the current row count (else ValueError,
modelled by the length guard). -/
def of3Loop : Nat → Option (List Tok × List Tok × List (List Tok)) → List Line →
    Option (Option (List Tok × List Tok × List (List Tok)))
  | _, acc, [] => some acc
  | i, acc, l :: rest =>
    if l = [] then of3Loop (i + 1) acc rest
    else
      match splitWS l with
      | t0 :: t1 :: ts =>
        if i = 0 then
          of3Loop (i + 1) (some ([t0], [t1], ts.map (fun t => [t]))) rest
        else
          match acc with
          | some (umu, u0u, uu) =>
            if ts.length = uu.length then
              of3Loop (i + 1)
                (some (umu ++ [t0], u0u ++ [t1],
                       List.zipWith (fun row t => row ++ [t]) uu ts)) rest
            else none
          | none => none
      | _ => none

/-- Embeds `output_format_3_parser`: line 0 is the basic record, line 1
the azimuth angles `phi`, later lines feed `umu`, `u0u` and the radiance
array `uu`.  `none` models a Python error. -/
def output_format_3_decode (vals : List Line) : Option ParsedBlock :=
  match vals with
  | v0 :: v1 :: rest =>
    match of3Loop 0 none rest with
    | some (some (umu, u0u, uu)) =>
      some { basic := splitWS v0, umu := some umu, phi := some (splitWS v1),
             u0u := some u0u, uu := some uu }
    | _ => none
  | _ => none

/-- The per-case output dictionary built by `run_libradtran`.  `errmsg`
models the `"error/verbose message"` entry. -/
structure CaseRecord where
  lambda : Tok
  edir : Tok
  edn : Tok
  eup : Tok
  uavgdir : Tok
  uavgdn : Tok
  uavup : Tok
  umu : Option (List Tok)
  phi : Option (List Tok)
  u0u : Option (List Tok)
  uu : Option (List (List Tok))
  errmsg : List Char
deriving DecidableEq, Repr

/-- Builds one output dictionary from a decoded block, embedding the
`output_dict` literal of `run_libradtran`: `outdata_basic[0]` … `[6]`
populate the seven named fields in that order (IndexError, i.e. `none`,
when the basic line has fewer than 7 tokens). -/
def mkRecord (pb : ParsedBlock) (err : List Char) : Option CaseRecord :=
  if h : 7 ≤ pb.basic.length then
    some { lambda := pb.basic.get ⟨0, by omega⟩,
           edir := pb.basic.get ⟨1, by omega⟩,
           edn := pb.basic.get ⟨2, by omega⟩,
           eup := pb.basic.get ⟨3, by omega⟩,
           uavgdir := pb.basic.get ⟨4, by omega⟩,
           uavgdn := pb.basic.get ⟨5, by omega⟩,
           uavup := pb.basic.get ⟨6, by omega⟩,
           umu := pb.umu, phi := pb.phi, u0u := pb.u0u, uu := pb.uu,
           errmsg := err }
  else none

/-- The Python `for` loop appending one parsed record per iteration;
a raised exception (a `none` step) aborts the whole call. -/
def mapOpt (f : α → Option β) : List α → Option (List β)
  | [] => some []
  | a :: as => (f a).bind fun b => (mapOpt f as).map (b :: ·)

/-- The slices `vals[ind*k : (ind+1)*k]` for `ind = 0 … n-1`. -/
def chunks (k : Nat) : Nat → List Line → List (List Line)
  | 0, _ => []
  | n + 1, xs => xs.take k :: chunks k n (xs.drop k)

/-- The parser options of the source: `int(conf["output_format"])` and
`int(conf["umu_length"])`. -/
structure Conf where
  output_format : Int
  umu_length : Nat
deriving DecidableEq, Repr

/-- The parsing half of `run_libradtran` (its `else` branch): split
lines are cut into per-case blocks — `int(loop_row_count)` truncates,
so the case count is the floor of `(len(vals)-1) / linesPerCase`; the
accompanying non-divisibility `print` is output-only and does not alter
control flow.  An unknown `output_format` leaves `loop_row_count`
unassigned (NameError, modelled `none`). -/
def parseCases (conf : Conf) (vals : List Line) (err : List Char) :
    Option (List CaseRecord) :=
  if conf.output_format = 0 then
    mapOpt (fun l => mkRecord (output_format_1_decode l) err) vals.dropLast
  else if conf.output_format = 1 then
    mapOpt (fun b => (output_format_2_decode b).bind (mkRecord · err))
      (chunks (1 + conf.umu_length)
        ((vals.length - 1) / (1 + conf.umu_length)) vals)
  else if conf.output_format = 2 then
    mapOpt (fun b => (output_format_3_decode b).bind (mkRecord · err))
      (chunks (2 + conf.umu_length)
        ((vals.length - 1) / (2 + conf.umu_length)) vals)
  else none

/-- Outcome of one `uvspec` subprocess: exit status and the decoded
standard output / standard error texts. -/
structure ProcResult where
  returncode : Int
  stdout : List Char
  stderr : List Char
deriving DecidableEq, Repr

/-- Result of `run_libradtran`: the error string returned on non-zero
exit, the list of per-case dictionaries, or an uncaught Python
exception. -/
inductive RunResult where
  | err : List Char → RunResult
  | ok : List CaseRecord → RunResult
  | crash : RunResult
deriving DecidableEq, Repr

/-- Embeds `run_libradtran`, with the subprocess outcome supplied as
`pr`: on non-zero `returncode` the decoded standard-error text is
returned as-is; otherwise standard output is split on newlines and
parsed according to `conf`. -/
def run_libradtran (pr : ProcResult) (conf : Conf) : RunResult :=
  if pr.returncode ≠ 0 then .err pr.stderr
  else
    match parseCases conf (pySplitLines pr.stdout) pr.stderr with
    | some recs => .ok recs
    | none => .crash

/-- `True` when `pat` is an initial segment of `s` (Python substring
match at one position). -/
def listStartsWith : List Char → List Char → Bool
  | _, [] => true
  | [], _ :: _ => false
  | c :: s, d :: p => c = d && listStartsWith s p

/-- Index of the first occurrence of `pat` in `s`, if any. -/
def subIndex : List Char → List Char → Option Nat
  | s, pat =>
    if listStartsWith s pat then some 0
    else
      match s with
      | [] => none
      | _ :: rest => (subIndex rest pat).map (· + 1)

/-- Python `s.find(pat)`: first index, or `-1` when absent. -/
def pyFind (s pat : List Char) : Int :=
  match subIndex s pat with
  | some n => (n : Int)
  | none => -1

/-- The fixed anchor token `word = "disort"` of `add_to_main_input_str`. -/
def anchorWord : List Char := ['d', 'i', 's', 'o', 'r', 't']

/-- The inserted text `f"\n{temp_file_var_name} {temp_file_name}"`. -/
def directiveLine (name file : List Char) : List Char :=
  '\n' :: (name ++ ' ' :: file)

/-- Embeds `add_to_main_input_str`: find `"disort"` (Python `find`,
`-1` when absent), set `end_index = start_index + len(word)` and splice
the directive between `main_str[:end_index]` and `main_str[end_index:]`. -/
def add_to_main_input_str (main_str name file : List Char) : List Char :=
  let start_index := pyFind main_str anchorWord
  let end_index := (start_index + (anchorWord.length : Int)).toNat
  main_str.take end_index ++ directiveLine name file ++ main_str.drop end_index

/-- The `for key in temp_files` loop of `run_conf_files_libradtran`:
repeatedly rewrite the main input string, one auxiliary file at a time,
in mapping order.  Each pair is (directive name, materialised temp-file
path); the file contents are written to disk and do not feed back into
the string. -/
def inject (main : List Char) : List (List Char × List Char) → List Char
  | [] => main
  | (k, path) :: rest => inject (add_to_main_input_str main k path) rest

/-- One configuration of the batch runner: `parser_options`,
`main_str.input_str`, and the optional `temp_strs` section given as
(directive name, temp-file path) pairs in mapping order. -/
structure Configuration where
  parser_options : Conf
  input_str : List Char
  temp_strs : Option (List (List Char × List Char))

/-- The input text actually piped to the solver for one configuration:
the raw `input_str`, rewritten by the `temp_strs` injection loop when
that section exists. -/
def buildInput (c : Configuration) : List Char :=
  match c.temp_strs with
  | none => c.input_str
  | some ps => inject c.input_str ps

/-- Embeds `run_conf_files_libradtran` with the external solver as an
oracle from final input text to subprocess outcome: each configuration
is run independently and its result (parsed list or error text)
appended to `conf_results` in input order. -/
def run_conf_files_libradtran (solver : List Char → ProcResult)
    (confs : List Configuration) : List RunResult :=
  confs.map fun c => run_libradtran (solver (buildInput c)) c.parser_options

/-! Concrete inputs used by the witnesses and counterexamples below. -/

/-- A zero-exit solver outcome whose output has 3 lines plus the
trailing blank — not divisible by the 2 lines per case of
`output_format = 1`, `umu_length = 1`. -/
def exPr1 : ProcResult := ⟨0, "1 2 3 4 5 6 7\n8 9\n1 1\n".toList, []⟩

/-- The single record `run_libradtran` emits for `exPr1` after
floor-dividing 3 lines by 2. -/
def exRec1 : CaseRecord :=
  { lambda := "1".toList, edir := "2".toList, edn := "3".toList,
    eup := "4".toList, uavgdir := "5".toList, uavgdn := "6".toList,
    uavup := "7".toList, umu := some ["8".toList], phi := none,
    u0u := some ["9".toList], uu := none, errmsg := [] }

/-- A format-2 block: basic line, azimuth line with 3 angles, then 2
viewing-angle lines each carrying 2 + 3 columns. -/
def exBlock2 : List Line :=
  ["1 2 3 4 5 6 7", "0 60 120", "-0.5 9 11 12 13", "0.5 8 21 22 23"].map
    String.toList

/-- The radiance table the code actually builds for `exBlock2`:
3 rows (azimuth angles) × 2 columns (viewing angles). -/
def exUuActual : List (List Tok) :=
  [["11".toList, "21".toList], ["12".toList, "22".toList],
   ["13".toList, "23".toList]]

/-- The radiance table the claim describes for `exBlock2`: 2 rows
(viewing angles) × 3 columns (azimuth angles). -/
def exUuClaimed : List (List Tok) :=
  [["11".toList, "12".toList, "13".toList],
   ["21".toList, "22".toList, "23".toList]]

/-- A format-1 block whose middle data line is whitespace-only (one
space), not empty. -/
def exBlock6ws : List Line :=
  ["1 2 3 4 5 6 7", " ", "5 6"].map String.toList

/-- `exBlock6ws` with the whitespace-only line removed. -/
def exBlock6ok : List Line := ["1 2 3 4 5 6 7", "5 6"].map String.toList

/-- Parser options shared by the batch-run witness configurations. -/
def exConf8 : Conf := ⟨0, 0⟩

/-- First batch configuration (succeeds). -/
def exCfg8a : Configuration := ⟨exConf8, "a".toList, none⟩

/-- Second batch configuration (its solver run fails). -/
def exCfg8b : Configuration := ⟨exConf8, "b".toList, none⟩

/-- Third batch configuration (succeeds). -/
def exCfg8c : Configuration := ⟨exConf8, "c".toList, none⟩

/-- The batch of three configurations for the isolation witness. -/
def exCfgs8 : List Configuration := [exCfg8a, exCfg8b, exCfg8c]

/-- Solver oracle that fails (exit 1, stderr "boom") exactly on the
second configuration's input text. -/
def exSolver8 : List Char → ProcResult := fun s =>
  if s = "b".toList then ⟨1, [], "boom".toList⟩
  else ⟨0, "1 2 3 4 5 6 7\n".toList, []⟩

/-- The record parsed for the succeeding batch configurations. -/
def exRec8 : CaseRecord :=
  { lambda := "1".toList, edir := "2".toList, edn := "3".toList,
    eup := "4".toList, uavgdir := "5".toList, uavgdn := "6".toList,
    uavup := "7".toList, umu := none, phi := none, u0u := none,
    uu := none, errmsg := [] }

/-- A zero-exit solver outcome whose output has 4 lines plus the
trailing blank — not divisible by the 3 lines per case of
`output_format = 2`, `umu_length = 1`. -/
def exPr2c1 : ProcResult :=
  ⟨0, "1 2 3 4 5 6 7\n10 20\n0.5 6 7 8\n9 9\n".toList, []⟩

/-- The single record `run_libradtran` emits for `exPr2c1` after
floor-dividing 4 lines by 3. -/
def exRec2c1 : CaseRecord :=
  { lambda := "1".toList, edir := "2".toList, edn := "3".toList,
    eup := "4".toList, uavgdir := "5".toList, uavgdn := "6".toList,
    uavup := "7".toList, umu := some ["0.5".toList],
    phi := some ["10".toList, "20".toList], u0u := some ["6".toList],
    uu := some [["7".toList], ["8".toList]], errmsg := [] }

/-- Basic-line witness record for the format-0 path of C5. -/
def exRecA5 : CaseRecord :=
  { lambda := "1".toList, edir := "2".toList, edn := "3".toList,
    eup := "4".toList, uavgdir := "5".toList, uavgdn := "6".toList,
    uavup := "7".toList, umu := none, phi := none, u0u := none,
    uu := none, errmsg := "e".toList }

/-- Basic-line witness record for the format-1 path of C5. -/
def exRecB5 : CaseRecord :=
  { lambda := "1".toList, edir := "2".toList, edn := "3".toList,
    eup := "4".toList, uavgdir := "5".toList, uavgdn := "6".toList,
    uavup := "7".toList, umu := some ["0.5".toList, "0.6".toList],
    phi := none, u0u := some ["6".toList, "7".toList], uu := none,
    errmsg := "e".toList }

/-- Basic-line witness record for the format-2 path of C5. -/
def exRecC5 : CaseRecord :=
  { lambda := "1".toList, edir := "2".toList, edn := "3".toList,
    eup := "4".toList, uavgdir := "5".toList, uavgdn := "6".toList,
    uavup := "7".toList, umu := some ["0.5".toList, "0.6".toList],
    phi := some ["10".toList, "20".toList],
    u0u := some ["6".toList, "7".toList],
    uu := some [["9".toList, "8".toList], ["9".toList, "8".toList]],
    errmsg := "e".toList }

/-! General lemmas about the embedding. -/

/-- A successful `mapOpt` run produces one output per input. -/
theorem mapOpt_length {α β : Type} {f : α → Option β} :
    ∀ {l : List α} {r : List β}, mapOpt f l = some r → r.length = l.length := by
  intro l
  induction l with
  | nil => intro r h; simp [mapOpt] at h; simp [← h]
  | cons a as ih =>
    intro r h
    cases hfa : f a with
    | none => rw [mapOpt, hfa] at h; simp at h
    | some b =>
      rw [mapOpt, hfa] at h
      cases hrest : mapOpt f as with
      | none => rw [hrest] at h; simp at h
      | some rs =>
        rw [hrest] at h
        have hr : b :: rs = r := by simpa using h
        subst hr
        simp [ih hrest]

/-- `chunks` always yields the requested number of slices. -/
theorem chunks_length (k : Nat) : ∀ (n : Nat) (xs : List Line),
    (chunks k n xs).length = n := by
  intro n
  induction n with
  | zero => intro xs; rfl
  | succ m ih => intro xs; simp [chunks, ih]

/-- On a non-zero exit status `run_libradtran` returns the captured
standard-error text unchanged. -/
theorem run_libradtran_nonzero {pr : ProcResult} (conf : Conf)
    (h : pr.returncode ≠ 0) : run_libradtran pr conf = .err pr.stderr := by
  unfold run_libradtran
  rw [if_pos h]

/-- C1 counterexample: with `output_format = 1`, `umu_length = 1`, a
3-line output (plus trailing blank) is not divisible by the 2 lines per
case, yet `run_libradtran` returns a successful one-record result — no
`MalformedOutput`-style failure is raised. -/
theorem claim_C1_counterexample :
    run_libradtran exPr1 ⟨1, 1⟩ = .ok [exRec1] ∧
    (pySplitLines exPr1.stdout).length - 1 = 3 ∧ ¬ (1 + 1) ∣ 3 := by
  refine ⟨by decide, by decide, by decide⟩

/-- C1 amended: on a zero exit status, in every output format
`run_libradtran` never fails on an indivisible line count: any
successful result has exactly `⌊(lineCount - 1) / linesPerCase⌋`
records, where `linesPerCase` is 1 for format 0, `1 + umu_length` for
format 1 and `2 + umu_length` for format 2 — i.e. the case count is
silently floor-divided. -/
theorem claim_C1_floor_truncation (pr : ProcResult) (u k : Nat)
    (conf : Conf) (recs : List CaseRecord)
    (hconf : (conf = ⟨0, u⟩ ∧ k = 1) ∨ (conf = ⟨1, u⟩ ∧ k = 1 + u) ∨
      (conf = ⟨2, u⟩ ∧ k = 2 + u))
    (hret : pr.returncode = 0)
    (hok : run_libradtran pr conf = .ok recs) :
    recs.length = ((pySplitLines pr.stdout).length - 1) / k := by
  unfold run_libradtran at hok
  rw [hret, if_neg (by decide : ¬ ((0 : Int) ≠ 0))] at hok
  cases hp : parseCases conf (pySplitLines pr.stdout) pr.stderr with
  | none => rw [hp] at hok; exact absurd hok (by simp)
  | some rs =>
    rw [hp] at hok
    simp only [RunResult.ok.injEq] at hok
    subst hok
    rcases hconf with ⟨hc, hk⟩ | ⟨hc, hk⟩ | ⟨hc, hk⟩ <;> subst hc <;>
      subst hk
    · unfold parseCases at hp
      rw [if_pos rfl] at hp
      rw [Nat.div_one, mapOpt_length hp, List.length_dropLast]
    · unfold parseCases at hp
      rw [if_neg (by decide : ¬ ((1 : Int) = 0)), if_pos rfl] at hp
      exact (mapOpt_length hp).trans (chunks_length _ _ _)
    · unfold parseCases at hp
      rw [if_neg (by decide : ¬ ((2 : Int) = 0)),
        if_neg (by decide : ¬ ((2 : Int) = 1)), if_pos rfl] at hp
      exact (mapOpt_length hp).trans (chunks_length _ _ _)

/-- C1 witness: the floor-truncation theorem applied to indivisible
outputs in format 1 (`exPr1`, 3 lines / 2 per case) and format 2
(`exPr2c1`, 4 lines / 3 per case). -/
theorem claim_C1_floor_truncation_witness :
    ([exRec1] : List CaseRecord).length =
      ((pySplitLines exPr1.stdout).length - 1) / (1 + 1) ∧
    ([exRec2c1] : List CaseRecord).length =
      ((pySplitLines exPr2c1.stdout).length - 1) / (2 + 1) :=
  ⟨claim_C1_floor_truncation exPr1 1 (1 + 1) ⟨1, 1⟩ [exRec1]
      (Or.inr (Or.inl ⟨rfl, rfl⟩)) rfl (by decide),
    claim_C1_floor_truncation exPr2c1 1 (2 + 1) ⟨2, 1⟩ [exRec2c1]
      (Or.inr (Or.inr ⟨rfl, rfl⟩)) rfl (by decide)⟩

/-- C7: when the external solver exits non-zero, `run_libradtran`
returns the captured standard-error text verbatim and performs no
output parsing. -/
theorem claim_C7_nonzero_exit_stderr (pr : ProcResult) (conf : Conf)
    (h : pr.returncode ≠ 0) : run_libradtran pr conf = .err pr.stderr :=
  run_libradtran_nonzero conf h

/-- C7 witness: a concrete failing process outcome. -/
theorem claim_C7_nonzero_exit_stderr_witness :
    run_libradtran ⟨2, "junk".toList, "boom".toList⟩ ⟨0, 0⟩ =
      .err "boom".toList :=
  claim_C7_nonzero_exit_stderr ⟨2, "junk".toList, "boom".toList⟩ ⟨0, 0⟩
    (by decide)

/-- C8: the batch runner returns one entry per configuration, in input
order; each entry depends only on its own configuration, and a
configuration whose solver run exits non-zero contributes its error
text without affecting any other entry. -/
theorem claim_C8_batch_isolation (solver : List Char → ProcResult)
    (confs : List Configuration) :
    (run_conf_files_libradtran solver confs).length = confs.length ∧
    ∀ i (h : i < confs.length)
      (h' : i < (run_conf_files_libradtran solver confs).length),
      (run_conf_files_libradtran solver confs).get ⟨i, h'⟩ =
        run_libradtran (solver (buildInput (confs.get ⟨i, h⟩)))
          (confs.get ⟨i, h⟩).parser_options ∧
      ((solver (buildInput (confs.get ⟨i, h⟩))).returncode ≠ 0 →
        (run_conf_files_libradtran solver confs).get ⟨i, h'⟩ =
          .err (solver (buildInput (confs.get ⟨i, h⟩))).stderr) := by
  constructor
  · simp [run_conf_files_libradtran]
  · intro i h h'
    have hg : (run_conf_files_libradtran solver confs).get ⟨i, h'⟩ =
        run_libradtran (solver (buildInput (confs.get ⟨i, h⟩)))
          (confs.get ⟨i, h⟩).parser_options := by
      simp [run_conf_files_libradtran, List.get_eq_getElem, List.getElem_map]
    exact ⟨hg, fun hnz => hg.trans (run_libradtran_nonzero _ hnz)⟩

/-- C8 witness: a batch of three configurations whose second solver run
fails still yields three entries — parsed results at positions 0 and 2,
the error text at position 1. -/
theorem claim_C8_batch_isolation_witness :
    (run_conf_files_libradtran exSolver8 exCfgs8).length = 3 ∧
    (run_conf_files_libradtran exSolver8 exCfgs8).get ⟨1, by decide⟩ =
      .err "boom".toList ∧
    (run_conf_files_libradtran exSolver8 exCfgs8).get ⟨0, by decide⟩ =
      .ok [exRec8] ∧
    (run_conf_files_libradtran exSolver8 exCfgs8).get ⟨2, by decide⟩ =
      .ok [exRec8] := by
  have h := claim_C8_batch_isolation exSolver8 exCfgs8
  refine ⟨h.1.trans (by decide), ?_, ?_, ?_⟩
  · exact ((h.2 1 (by decide) (by decide)).2 (by decide)).trans (by decide)
  · exact ((h.2 0 (by decide) (by decide)).1).trans (by decide)
  · exact ((h.2 2 (by decide) (by decide)).1).trans (by decide)

/-- C10: when the anchor token `"disort"` does not occur in the main
input string, `add_to_main_input_str` raises no error: `find` yields
`-1`, the insertion point becomes `-1 + 6 = 5`, and the directive line
is spliced in after character position 5. -/
theorem claim_C10_no_anchor_splice (main n f : List Char)
    (habs : subIndex main anchorWord = none) :
    add_to_main_input_str main n f =
      main.take 5 ++ directiveLine n f ++ main.drop 5 := by
  unfold add_to_main_input_str pyFind
  rw [habs]
  norm_num [anchorWord]
  rfl

/-- C10 witness: a main string without the anchor gets the directive
spliced after its first five characters. -/
theorem claim_C10_no_anchor_splice_witness :
    add_to_main_input_str "abcdefgh".toList "n1".toList "f1".toList =
      ("abcdefgh".toList).take 5 ++ directiveLine "n1".toList "f1".toList ++
        ("abcdefgh".toList).drop 5 :=
  claim_C10_no_anchor_splice "abcdefgh".toList "n1".toList "f1".toList
    (by decide)

/-- C2 (code bug evaluation): on a well-formed format-2 block with 2
viewing-angle lines and 3 azimuth angles, the block decoder returns the
radiance table with 3 rows (one per azimuth angle) and 2 columns (one
per viewing angle) — the transpose of the `[viewing, azimuth]` layout
stated by the claim and by the code's own dictionary key
`"uu(umu,phi)"`; the entries are the literal column values, transposed. -/
theorem claim_C2_radiance_table_transposed :
    output_format_3_decode exBlock2 =
      some { basic := ["1", "2", "3", "4", "5", "6", "7"].map String.toList,
             umu := some ["-0.5".toList, "0.5".toList],
             phi := some ["0".toList, "60".toList, "120".toList],
             u0u := some ["9".toList, "8".toList],
             uu := some exUuActual } ∧
    exUuActual.length = 3 ∧ exUuClaimed.length = 2 ∧
    exUuActual ≠ exUuClaimed := by
  refine ⟨by decide, by decide, by decide, by decide⟩

/-- C6 counterexample: a whitespace-only (non-empty) line inside a
format-1 block is not skipped — it is fed to the row decoder, which
fails (IndexError on the empty token row); removing the line instead
yields a successful parse.  So whitespace-only lines are not treated
like empty lines. -/
theorem claim_C6_counterexample :
    output_format_2_decode exBlock6ws = none ∧
    output_format_2_decode exBlock6ok =
      some { basic := ["1", "2", "3", "4", "5", "6", "7"].map String.toList,
             umu := some ["5".toList], phi := none,
             u0u := some ["6".toList], uu := none } := by
  refine ⟨by decide, by decide⟩

/-- After the first enumeration step the format-1 loop no longer
consults the index: any two non-zero indices act alike. -/
theorem of2Loop_index_irrel : ∀ (t : List Line)
    (acc : Option (List Tok × List Tok)) (i j : Nat), i ≠ 0 → j ≠ 0 →
    of2Loop i acc t = of2Loop j acc t := by
  intro t
  induction t with
  | nil => intro acc i j hi hj; rfl
  | cons l rest ih =>
    intro acc i j hi hj
    by_cases hl : l = []
    · simp only [of2Loop, if_pos hl]
      exact ih _ _ _ (by omega) (by omega)
    · rcases hs : splitWS l with _ | ⟨t0, _ | ⟨t1, ts'⟩⟩
      · simp [of2Loop, hl, hs]
      · simp [of2Loop, hl, hs]
      · rcases acc with _ | ⟨umu, u0u⟩
        · simp [of2Loop, hl, hs, hi, hj]
        · simp only [of2Loop, if_neg hl, hs]
          rw [if_neg hi, if_neg hj]
          exact ih _ _ _ (by omega) (by omega)

/-- Past the first enumeration step, dropping the exactly-empty lines
of the remaining input does not change the format-1 loop's result. -/
theorem of2Loop_filter : ∀ (t : List Line)
    (acc : Option (List Tok × List Tok)) (i : Nat), i ≠ 0 →
    of2Loop i acc t = of2Loop i acc (t.filter fun l => !l.isEmpty) := by
  intro t
  induction t with
  | nil => intro acc i hi; rfl
  | cons l rest ih =>
    intro acc i hi
    by_cases hl : l = []
    · have hf : (l :: rest).filter (fun l => !l.isEmpty) =
          rest.filter (fun l => !l.isEmpty) := by simp [hl]
      rw [hf]
      simp only [of2Loop, if_pos hl]
      exact (ih _ _ (by omega)).trans
        (of2Loop_index_irrel _ _ _ _ (by omega) hi)
    · have hf : (l :: rest).filter (fun l => !l.isEmpty) =
          l :: rest.filter (fun l => !l.isEmpty) := by
        simp [List.isEmpty_iff, hl]
      rw [hf]
      rcases hs : splitWS l with _ | ⟨t0, _ | ⟨t1, ts'⟩⟩
      · simp [of2Loop, hl, hs]
      · simp [of2Loop, hl, hs]
      · rcases acc with _ | ⟨umu, u0u⟩
        · simp [of2Loop, hl, hs, hi]
        · simp only [of2Loop, if_neg hl, hs]
          rw [if_neg hi, if_neg hi]
          exact ih _ _ (by omega)

/-- After the first enumeration step the format-2 loop no longer
consults the index. -/
theorem of3Loop_index_irrel : ∀ (t : List Line)
    (acc : Option (List Tok × List Tok × List (List Tok))) (i j : Nat),
    i ≠ 0 → j ≠ 0 → of3Loop i acc t = of3Loop j acc t := by
  intro t
  induction t with
  | nil => intro acc i j hi hj; rfl
  | cons l rest ih =>
    intro acc i j hi hj
    by_cases hl : l = []
    · simp only [of3Loop, if_pos hl]
      exact ih _ _ _ (by omega) (by omega)
    · rcases hs : splitWS l with _ | ⟨t0, _ | ⟨t1, ts'⟩⟩
      · simp [of3Loop, hl, hs]
      · simp [of3Loop, hl, hs]
      · rcases acc with _ | ⟨umu, u0u, uu⟩
        · simp [of3Loop, hl, hs, hi, hj]
        · simp only [of3Loop, if_neg hl, hs]
          rw [if_neg hi, if_neg hj]
          by_cases hlen : ts'.length = uu.length
          · rw [if_pos hlen, if_pos hlen]
            exact ih _ _ _ (by omega) (by omega)
          · rw [if_neg hlen, if_neg hlen]

/-- Past the first enumeration step, dropping the exactly-empty lines
of the remaining input does not change the format-2 loop's result. -/
theorem of3Loop_filter : ∀ (t : List Line)
    (acc : Option (List Tok × List Tok × List (List Tok))) (i : Nat), i ≠ 0 →
    of3Loop i acc t = of3Loop i acc (t.filter fun l => !l.isEmpty) := by
  intro t
  induction t with
  | nil => intro acc i hi; rfl
  | cons l rest ih =>
    intro acc i hi
    by_cases hl : l = []
    · have hf : (l :: rest).filter (fun l => !l.isEmpty) =
          rest.filter (fun l => !l.isEmpty) := by simp [hl]
      rw [hf]
      simp only [of3Loop, if_pos hl]
      exact (ih _ _ (by omega)).trans
        (of3Loop_index_irrel _ _ _ _ (by omega) hi)
    · have hf : (l :: rest).filter (fun l => !l.isEmpty) =
          l :: rest.filter (fun l => !l.isEmpty) := by
        simp [List.isEmpty_iff, hl]
      rw [hf]
      rcases hs : splitWS l with _ | ⟨t0, _ | ⟨t1, ts'⟩⟩
      · simp [of3Loop, hl, hs]
      · simp [of3Loop, hl, hs]
      · rcases acc with _ | ⟨umu, u0u, uu⟩
        · simp [of3Loop, hl, hs, hi]
        · simp only [of3Loop, if_neg hl, hs]
          rw [if_neg hi, if_neg hi]
          by_cases hlen : ts'.length = uu.length
          · rw [if_pos hlen, if_pos hlen]
            exact ih _ _ (by omega)
          · rw [if_neg hlen, if_neg hlen]

/-- C6 amended: in both angle-bearing formats, exactly-empty lines
(Python's only falsy strings) occurring after a non-empty first
viewing-angle line are skipped without consuming a slot: filtering them
out of the remaining block does not change the decoder's result.
(Whitespace-only lines are not skipped — `claim_C6_counterexample` —
and an empty first viewing-angle line makes the decoder fail.) -/
theorem claim_C6_empty_line_skip (b p l0 : Line) (t : List Line)
    (h : l0 ≠ []) :
    output_format_2_decode (b :: l0 :: t) =
      output_format_2_decode (b :: l0 :: t.filter fun l => !l.isEmpty) ∧
    output_format_3_decode (b :: p :: l0 :: t) =
      output_format_3_decode (b :: p :: l0 :: t.filter fun l => !l.isEmpty) := by
  constructor
  · have hloop : of2Loop 0 none (l0 :: t) =
        of2Loop 0 none (l0 :: t.filter fun l => !l.isEmpty) := by
      rcases hs : splitWS l0 with _ | ⟨t0, _ | ⟨t1, ts'⟩⟩
      · simp [of2Loop, h, hs]
      · simp [of2Loop, h, hs]
      · simp only [of2Loop, if_neg h, hs, if_pos rfl]
        exact of2Loop_filter t _ 1 (by omega)
    simp only [output_format_2_decode, hloop]
  · have hloop : of3Loop 0 none (l0 :: t) =
        of3Loop 0 none (l0 :: t.filter fun l => !l.isEmpty) := by
      rcases hs : splitWS l0 with _ | ⟨t0, _ | ⟨t1, ts'⟩⟩
      · simp [of3Loop, h, hs]
      · simp [of3Loop, h, hs]
      · simp only [of3Loop, if_neg h, hs, if_pos rfl]
        exact of3Loop_filter t _ 1 (by omega)
    simp only [output_format_3_decode, hloop]

/-- C6 witness: a concrete block with an empty line after the first
viewing-angle line parses exactly like the block with that line
removed, in both formats. -/
theorem claim_C6_empty_line_skip_witness :
    output_format_2_decode
        ("1 2 3 4 5 6 7".toList :: "5 6".toList ::
          ([[], "7 8".toList] : List Line)) =
      output_format_2_decode
        ("1 2 3 4 5 6 7".toList :: "5 6".toList ::
          ([[], "7 8".toList] : List Line).filter fun l => !l.isEmpty) ∧
    output_format_3_decode
        ("1 2 3 4 5 6 7".toList :: "0 60".toList :: "5 6 9".toList ::
          ([[], "7 8 9".toList] : List Line)) =
      output_format_3_decode
        ("1 2 3 4 5 6 7".toList :: "0 60".toList :: "5 6 9".toList ::
          ([[], "7 8 9".toList] : List Line).filter fun l => !l.isEmpty) := by
  have h2 := claim_C6_empty_line_skip "1 2 3 4 5 6 7".toList
    "0 60".toList "5 6".toList ([[], "7 8".toList] : List Line) (by decide)
  have h3 := claim_C6_empty_line_skip "1 2 3 4 5 6 7".toList
    "0 60".toList "5 6 9".toList ([[], "7 8 9".toList] : List Line)
    (by decide)
  exact ⟨h2.1, h3.2⟩

/-- Mapping the format-0 decoder over well-formed single lines (at
least 7 tokens) succeeds, yields one record per line in order, and
populates no optional field. -/
theorem mapOpt_format0 (err : List Char) : ∀ (lines : List Line),
    (∀ l ∈ lines, 7 ≤ (splitWS l).length) →
    ∃ recs,
      mapOpt (fun l => mkRecord (output_format_1_decode l) err) lines =
        some recs ∧
      recs.length = lines.length ∧
      (∀ r ∈ recs, r.umu = none ∧ r.phi = none ∧ r.u0u = none ∧
        r.uu = none) ∧
      ∀ i (hi : i < lines.length) (hr : i < recs.length),
        mkRecord (output_format_1_decode (lines.get ⟨i, hi⟩)) err =
          some (recs.get ⟨i, hr⟩) := by
  intro lines
  induction lines with
  | nil =>
    intro _
    exact ⟨[], rfl, rfl, by simp, fun i hi => absurd hi (by simp)⟩
  | cons l ls ih =>
    intro hwf
    obtain ⟨recs, hmap, hlen, hnone, hpt⟩ :=
      ih fun x hx => hwf x (List.mem_cons_of_mem _ hx)
    have hl : 7 ≤ (splitWS l).length := hwf l (List.mem_cons_self _ _)
    obtain ⟨rec, hrec, hopt⟩ :
        ∃ rec, mkRecord (output_format_1_decode l) err = some rec ∧
          rec.umu = none ∧ rec.phi = none ∧ rec.u0u = none ∧
          rec.uu = none := by
      unfold mkRecord output_format_1_decode
      rw [dif_pos hl]
      exact ⟨_, rfl, rfl, rfl, rfl, rfl⟩
    refine ⟨rec :: recs, ?_, by simp [hlen], ?_, ?_⟩
    · simp only [mapOpt, hrec, hmap, Option.some_bind, Option.map_some']
    · intro r hr
      rcases List.mem_cons.mp hr with h | h
      · exact h ▸ hopt
      · exact hnone r h
    · intro i hi hr
      match i with
      | 0 => exact hrec
      | j + 1 =>
        exact hpt j (by simp only [List.length_cons] at hi; omega)
          (by simp only [List.length_cons] at hr; omega)

/-- C3: with `output_format = 0`, N well-formed single-line cases plus
the trailing blank line give exactly N records, in input order, each
with every optional field `None`. -/
theorem claim_C3_format0_records (pr : ProcResult) (u : Nat)
    (lines : List Line) (hret : pr.returncode = 0)
    (hsplit : pySplitLines pr.stdout = lines ++ [[]])
    (hwf : ∀ l ∈ lines, 7 ≤ (splitWS l).length) :
    ∃ recs, run_libradtran pr ⟨0, u⟩ = .ok recs ∧
      recs.length = lines.length ∧
      (∀ r ∈ recs, r.umu = none ∧ r.phi = none ∧ r.u0u = none ∧
        r.uu = none) ∧
      ∀ i (hi : i < lines.length) (hr : i < recs.length),
        mkRecord (output_format_1_decode (lines.get ⟨i, hi⟩)) pr.stderr =
          some (recs.get ⟨i, hr⟩) := by
  obtain ⟨recs, hmap, hlen, hnone, hpt⟩ := mapOpt_format0 pr.stderr lines hwf
  refine ⟨recs, ?_, hlen, hnone, hpt⟩
  unfold run_libradtran
  rw [hret, if_neg (by decide : ¬ ((0 : Int) ≠ 0)), hsplit]
  unfold parseCases
  rw [if_pos rfl, List.dropLast_concat, hmap]

/-- C3 witness: two well-formed single-line cases with a trailing blank
give two records with no optional fields. -/
theorem claim_C3_format0_records_witness :
    ∃ recs,
      run_libradtran
          ⟨0, "1 2 3 4 5 6 7\n8 9 10 11 12 13 14\n".toList, []⟩ ⟨0, 5⟩ =
        .ok recs ∧
      recs.length =
        ([ "1 2 3 4 5 6 7".toList,
           "8 9 10 11 12 13 14".toList ] : List Line).length ∧
      (∀ r ∈ recs, r.umu = none ∧ r.phi = none ∧ r.u0u = none ∧
        r.uu = none) ∧
      ∀ i (hi : i < ([ "1 2 3 4 5 6 7".toList,
           "8 9 10 11 12 13 14".toList ] : List Line).length)
        (hr : i < recs.length),
        mkRecord
            (output_format_1_decode
              (([ "1 2 3 4 5 6 7".toList,
                  "8 9 10 11 12 13 14".toList ] : List Line).get ⟨i, hi⟩))
            (⟨0, "1 2 3 4 5 6 7\n8 9 10 11 12 13 14\n".toList,
              []⟩ : ProcResult).stderr =
          some (recs.get ⟨i, hr⟩) :=
  claim_C3_format0_records
    ⟨0, "1 2 3 4 5 6 7\n8 9 10 11 12 13 14\n".toList, []⟩ 5
    [ "1 2 3 4 5 6 7".toList, "8 9 10 11 12 13 14".toList ]
    rfl (by decide) (by decide)

/-- A line whose token split is non-empty is itself non-empty. -/
theorem ne_nil_of_splitWS_cons {l : Line} {t : Tok} {ts : List Tok}
    (h : splitWS l = t :: ts) : l ≠ [] := by
  intro e
  rw [e] at h
  simp [splitWS, splitWSAux] at h

/-- C4: with `output_format = 1` and `umu_length = 3`, a block of one
basic line and three viewing-angle lines (each with at least two
tokens) yields exactly one record whose `umu` and `u0u` sequences list
the first and second columns of the three lines, in input-line order. -/
theorem claim_C4_format1_block (pr : ProcResult) (b l1 l2 l3 : Line)
    (b0 b1 b2 b3 b4 b5 b6 : Tok) (br : List Tok)
    (a1 u1 a2 u2 a3 u3 : Tok) (r1 r2 r3 : List Tok)
    (hret : pr.returncode = 0)
    (hsplit : pySplitLines pr.stdout = [b, l1, l2, l3, []])
    (hb : splitWS b = b0 :: b1 :: b2 :: b3 :: b4 :: b5 :: b6 :: br)
    (h1 : splitWS l1 = a1 :: u1 :: r1)
    (h2 : splitWS l2 = a2 :: u2 :: r2)
    (h3 : splitWS l3 = a3 :: u3 :: r3) :
    run_libradtran pr ⟨1, 3⟩ =
      .ok [{ lambda := b0, edir := b1, edn := b2, eup := b3,
             uavgdir := b4, uavgdn := b5, uavup := b6,
             umu := some [a1, a2, a3], phi := none,
             u0u := some [u1, u2, u3], uu := none,
             errmsg := pr.stderr }] := by
  have hne1 : l1 ≠ [] := ne_nil_of_splitWS_cons h1
  have hne2 : l2 ≠ [] := ne_nil_of_splitWS_cons h2
  have hne3 : l3 ≠ [] := ne_nil_of_splitWS_cons h3
  have hloop : of2Loop 0 none [l1, l2, l3] =
      some (some ([a1, a2, a3], [u1, u2, u3])) := by
    simp [of2Loop, hne1, hne2, hne3, h1, h2, h3]
  have hdec : output_format_2_decode [b, l1, l2, l3] =
      some { basic := splitWS b, umu := some [a1, a2, a3], phi := none,
             u0u := some [u1, u2, u3], uu := none } := by
    simp only [output_format_2_decode, hloop]
  have hrec : ∀ s : List Tok,
      s = b0 :: b1 :: b2 :: b3 :: b4 :: b5 :: b6 :: br →
      mkRecord
        { basic := s, umu := some [a1, a2, a3], phi := none,
          u0u := some [u1, u2, u3], uu := none } pr.stderr =
      some { lambda := b0, edir := b1, edn := b2, eup := b3,
             uavgdir := b4, uavgdn := b5, uavup := b6,
             umu := some [a1, a2, a3], phi := none,
             u0u := some [u1, u2, u3], uu := none,
             errmsg := pr.stderr } := by
    intro s hs
    subst hs
    unfold mkRecord
    rw [dif_pos (by simp only [List.length_cons]; omega)]
    rfl
  unfold run_libradtran
  rw [hret, if_neg (by decide : ¬ ((0 : Int) ≠ 0)), hsplit]
  have hpc : parseCases ⟨1, 3⟩ [b, l1, l2, l3, []] pr.stderr =
      some [{ lambda := b0, edir := b1, edn := b2, eup := b3,
              uavgdir := b4, uavgdn := b5, uavup := b6,
              umu := some [a1, a2, a3], phi := none,
              u0u := some [u1, u2, u3], uu := none,
              errmsg := pr.stderr }] := by
    unfold parseCases
    rw [if_neg (by decide : ¬ ((1 : Int) = 0)), if_pos rfl]
    norm_num
    rw [show chunks 4 1 [b, l1, l2, l3, ([] : Line)] = [[b, l1, l2, l3]]
      from rfl]
    simp only [mapOpt, hdec, Option.some_bind, Option.map_some']
    rw [hrec (splitWS b) hb]
    rfl
  rw [hpc]

/-- C4 witness: a concrete 4-line format-1 block with three
viewing-angle lines yields one record with both sequences of length 3
in line order. -/
theorem claim_C4_format1_block_witness :
    run_libradtran ⟨0, "1 2 3 4 5 6 7\n-1 4\n-2 5\n-3 6\n".toList,
        "v".toList⟩ ⟨1, 3⟩ =
      .ok [{ lambda := "1".toList, edir := "2".toList, edn := "3".toList,
             eup := "4".toList, uavgdir := "5".toList,
             uavgdn := "6".toList, uavup := "7".toList,
             umu := some ["-1".toList, "-2".toList, "-3".toList],
             phi := none,
             u0u := some ["4".toList, "5".toList, "6".toList], uu := none,
             errmsg := "v".toList }] :=
  claim_C4_format1_block
    ⟨0, "1 2 3 4 5 6 7\n-1 4\n-2 5\n-3 6\n".toList, "v".toList⟩
    "1 2 3 4 5 6 7".toList "-1 4".toList "-2 5".toList "-3 6".toList
    "1".toList "2".toList "3".toList "4".toList "5".toList "6".toList
    "7".toList []
    "-1".toList "4".toList "-2".toList "5".toList "-3".toList "6".toList
    [] [] []
    rfl (by decide) (by decide) (by decide) (by decide) (by decide)

/-- The seven named fields of a record built by `mkRecord` are the
first seven tokens of the block's basic line, in order. -/
theorem mkRecord_fields {pb : ParsedBlock} {err : List Char}
    {rec : CaseRecord} {b0 b1 b2 b3 b4 b5 b6 : Tok} {br : List Tok}
    (hbasic : pb.basic = b0 :: b1 :: b2 :: b3 :: b4 :: b5 :: b6 :: br)
    (hm : mkRecord pb err = some rec) :
    rec.lambda = b0 ∧ rec.edir = b1 ∧ rec.edn = b2 ∧ rec.eup = b3 ∧
    rec.uavgdir = b4 ∧ rec.uavgdn = b5 ∧ rec.uavup = b6 := by
  obtain ⟨basic, pumu, pphi, pu0u, puu⟩ := pb
  simp only at hbasic
  subst hbasic
  unfold mkRecord at hm
  rw [dif_pos (by simp only [List.length_cons]; omega)] at hm
  simp only [Option.some.injEq] at hm
  subst hm
  exact ⟨rfl, rfl, rfl, rfl, rfl, rfl, rfl⟩

/-- A successful format-1 decode takes its basic tokens from the
block's first line. -/
theorem of2_decode_basic (v0 : Line) (rest : List Line) {pb : ParsedBlock}
    (h : output_format_2_decode (v0 :: rest) = some pb) :
    pb.basic = splitWS v0 := by
  simp only [output_format_2_decode] at h
  cases hl : of2Loop 0 none rest with
  | none => rw [hl] at h; simp at h
  | some acc =>
    cases acc with
    | none => rw [hl] at h; simp at h
    | some s =>
      obtain ⟨umu, u0u⟩ := s
      rw [hl] at h
      simp only [Option.some.injEq] at h
      rw [← h]

/-- A successful format-2 decode takes its basic tokens from the
block's first line. -/
theorem of3_decode_basic (v0 v1 : Line) (rest : List Line)
    {pb : ParsedBlock}
    (h : output_format_3_decode (v0 :: v1 :: rest) = some pb) :
    pb.basic = splitWS v0 := by
  simp only [output_format_3_decode] at h
  cases hl : of3Loop 0 none rest with
  | none => rw [hl] at h; simp at h
  | some acc =>
    cases acc with
    | none => rw [hl] at h; simp at h
    | some s =>
      obtain ⟨umu, u0u, uu⟩ := s
      rw [hl] at h
      simp only [Option.some.injEq] at h
      rw [← h]

/-- C5: in every output format, whenever a block decodes into a record,
the block's first line supplies the seven whitespace-separated tokens
that populate `lambda`, `edir`, `edn`, `eup`, `uavgdir`, `uavgdn`,
`uavup`, in that fixed column order. -/
theorem claim_C5_basic_line_fields (l : Line) (bl : List Line)
    (err : List Char) (rec : CaseRecord)
    (b0 b1 b2 b3 b4 b5 b6 : Tok) (br : List Tok)
    (htoks : splitWS l = b0 :: b1 :: b2 :: b3 :: b4 :: b5 :: b6 :: br) :
    (mkRecord (output_format_1_decode l) err = some rec →
      rec.lambda = b0 ∧ rec.edir = b1 ∧ rec.edn = b2 ∧ rec.eup = b3 ∧
      rec.uavgdir = b4 ∧ rec.uavgdn = b5 ∧ rec.uavup = b6) ∧
    ((output_format_2_decode (l :: bl)).bind (fun pb => mkRecord pb err) =
        some rec →
      rec.lambda = b0 ∧ rec.edir = b1 ∧ rec.edn = b2 ∧ rec.eup = b3 ∧
      rec.uavgdir = b4 ∧ rec.uavgdn = b5 ∧ rec.uavup = b6) ∧
    ∀ l2 : Line,
      ((output_format_3_decode (l :: l2 :: bl)).bind
          (fun pb => mkRecord pb err) = some rec →
      rec.lambda = b0 ∧ rec.edir = b1 ∧ rec.edn = b2 ∧ rec.eup = b3 ∧
      rec.uavgdir = b4 ∧ rec.uavgdn = b5 ∧ rec.uavup = b6) := by
  refine ⟨?_, ?_, ?_⟩
  · intro hm
    exact @mkRecord_fields (output_format_1_decode l) err rec
      b0 b1 b2 b3 b4 b5 b6 br htoks hm
  · intro hm
    cases hd : output_format_2_decode (l :: bl) with
    | none => rw [hd] at hm; simp at hm
    | some pb =>
      rw [hd] at hm
      simp only [Option.some_bind] at hm
      exact mkRecord_fields ((of2_decode_basic l bl hd).trans htoks) hm
  · intro l2 hm
    cases hd : output_format_3_decode (l :: l2 :: bl) with
    | none => rw [hd] at hm; simp at hm
    | some pb =>
      rw [hd] at hm
      simp only [Option.some_bind] at hm
      exact mkRecord_fields ((of3_decode_basic l l2 bl hd).trans htoks) hm

/-- C5 witness: the basic-line field routing applied to a concrete
block in each of the three formats. -/
theorem claim_C5_basic_line_fields_witness :
    (exRecA5.lambda = "1".toList ∧ exRecA5.edir = "2".toList ∧
      exRecA5.edn = "3".toList ∧ exRecA5.eup = "4".toList ∧
      exRecA5.uavgdir = "5".toList ∧ exRecA5.uavgdn = "6".toList ∧
      exRecA5.uavup = "7".toList) ∧
    (exRecB5.lambda = "1".toList ∧ exRecB5.edir = "2".toList ∧
      exRecB5.edn = "3".toList ∧ exRecB5.eup = "4".toList ∧
      exRecB5.uavgdir = "5".toList ∧ exRecB5.uavgdn = "6".toList ∧
      exRecB5.uavup = "7".toList) ∧
    (exRecC5.lambda = "1".toList ∧ exRecC5.edir = "2".toList ∧
      exRecC5.edn = "3".toList ∧ exRecC5.eup = "4".toList ∧
      exRecC5.uavgdir = "5".toList ∧ exRecC5.uavgdn = "6".toList ∧
      exRecC5.uavup = "7".toList) := by
  have hA := (claim_C5_basic_line_fields "1 2 3 4 5 6 7".toList
    ["0.5 6 9 9".toList, "0.6 7 8 8".toList] "e".toList exRecA5
    "1".toList "2".toList "3".toList "4".toList "5".toList "6".toList
    "7".toList [] (by decide)).1 (by decide)
  have hB := (claim_C5_basic_line_fields "1 2 3 4 5 6 7".toList
    ["0.5 6 9 9".toList, "0.6 7 8 8".toList] "e".toList exRecB5
    "1".toList "2".toList "3".toList "4".toList "5".toList "6".toList
    "7".toList [] (by decide)).2.1 (by decide)
  have hC := ((claim_C5_basic_line_fields "1 2 3 4 5 6 7".toList
    ["0.5 6 9 9".toList, "0.6 7 8 8".toList] "e".toList exRecC5
    "1".toList "2".toList "3".toList "4".toList "5".toList "6".toList
    "7".toList [] (by decide)).2.2 "10 20".toList) (by decide)
  exact ⟨hA, hB, hC⟩

/-- The empty pattern matches at the start of anything. -/
theorem listStartsWith_nil (s : List Char) :
    listStartsWith s [] = true := by
  cases s <;> rfl

/-- A pattern matches at the start of any extension of itself. -/
theorem listStartsWith_append_self : ∀ (p s : List Char),
    listStartsWith (p ++ s) p = true := by
  intro p
  induction p with
  | nil => intro s; exact listStartsWith_nil s
  | cons c p' ih => intro s; simp [listStartsWith, ih]

/-- Whether a pattern matches at the start is determined by the first
`p.length` characters: anything appended beyond them is irrelevant. -/
theorem listStartsWith_congr : ∀ (p a b b' : List Char),
    p.length ≤ a.length →
    listStartsWith (a ++ b) p = listStartsWith (a ++ b') p := by
  intro p
  induction p with
  | nil =>
    intro a b b' _
    rw [listStartsWith_nil, listStartsWith_nil]
  | cons d p' ih =>
    intro a b b' hlen
    cases a with
    | nil => simp at hlen
    | cons c a' =>
      simp only [List.cons_append, listStartsWith]
      congr 1
      exact ih a' b b' (by simpa using hlen)

/-- The first occurrence of the anchor is unaffected by what follows
it: text inserted after the anchor cannot create an earlier match. -/
theorem subIndex_append_stable : ∀ (pre suf suf' : List Char),
    subIndex (pre ++ anchorWord ++ suf) anchorWord = some pre.length →
    subIndex (pre ++ anchorWord ++ suf') anchorWord = some pre.length := by
  intro pre
  induction pre with
  | nil =>
    intro suf suf' _
    simp only [List.nil_append, List.length_nil]
    unfold subIndex
    rw [if_pos (listStartsWith_append_self anchorWord suf')]
  | cons c pre' ih =>
    intro suf suf' h
    have hsw : listStartsWith (c :: pre' ++ anchorWord ++ suf) anchorWord =
        listStartsWith (c :: pre' ++ anchorWord ++ suf') anchorWord := by
      have := listStartsWith_congr anchorWord (c :: pre' ++ anchorWord)
        suf suf'
        (by simp only [List.length_append, List.length_cons]; omega)
      simpa [List.append_assoc] using this
    by_cases hstart :
        listStartsWith (c :: pre' ++ anchorWord ++ suf) anchorWord = true
    · unfold subIndex at h
      rw [if_pos hstart] at h
      simp at h
    · unfold subIndex at h ⊢
      rw [if_neg hstart] at h
      rw [if_neg fun he => hstart (hsw.trans he)]
      simp only [List.cons_append] at h ⊢
      cases hsub : subIndex (pre' ++ anchorWord ++ suf) anchorWord with
      | none =>
        rw [hsub] at h
        simp at h
      | some n =>
        rw [hsub] at h
        simp only [Option.map_some', Option.some.injEq,
          List.length_cons] at h
        have hn : n = pre'.length := by omega
        subst hn
        rw [ih suf suf' hsub]
        simp

/-- Splicing one directive: when the anchor first occurs right after
`pre`, `add_to_main_input_str` inserts the directive line immediately
after the anchor and leaves everything else unchanged. -/
theorem add_to_main_eq (pre suf n f : List Char)
    (hfind : subIndex (pre ++ anchorWord ++ suf) anchorWord =
      some pre.length) :
    add_to_main_input_str (pre ++ anchorWord ++ suf) n f =
      pre ++ anchorWord ++ directiveLine n f ++ suf := by
  have hpf : pyFind (pre ++ anchorWord ++ suf) anchorWord =
      (pre.length : Int) := by
    unfold pyFind
    rw [hfind]
  have ht : (pre ++ anchorWord ++ suf).take (pre.length + 6) =
      pre ++ anchorWord := List.take_left' (by simp [anchorWord])
  have hd : (pre ++ anchorWord ++ suf).drop (pre.length + 6) = suf :=
    List.drop_left' (by simp [anchorWord])
  simp only [add_to_main_input_str]
  rw [hpf]
  rw [show (((pre.length : Int)) + ((anchorWord.length : Nat) : Int)).toNat =
    pre.length + 6 from by simp [anchorWord]; omega]
  rw [ht, hd]

/-- C9: per auxiliary file, one directive line is spliced immediately
after the first anchor occurrence, the rest of the text unchanged;
injecting a whole mapping in order stacks the directive lines directly
after the anchor in reverse mapping order. -/
theorem claim_C9_injection (pre suf : List Char)
    (ps : List (List Char × List Char))
    (hfind : subIndex (pre ++ anchorWord ++ suf) anchorWord =
      some pre.length) :
    inject (pre ++ anchorWord ++ suf) ps =
      pre ++ anchorWord ++
        (ps.reverse.map fun q => directiveLine q.1 q.2).flatten ++ suf := by
  induction ps generalizing suf with
  | nil => simp [inject]
  | cons q rest ih =>
    obtain ⟨k, path⟩ := q
    show inject (add_to_main_input_str (pre ++ anchorWord ++ suf) k path)
      rest = _
    rw [add_to_main_eq pre suf k path hfind]
    rw [show pre ++ anchorWord ++ directiveLine k path ++ suf =
      pre ++ anchorWord ++ (directiveLine k path ++ suf) from by
        simp [List.append_assoc]]
    rw [ih (directiveLine k path ++ suf)
      (subIndex_append_stable pre suf _ hfind)]
    simp [List.append_assoc]

/-- C9 witness: two auxiliary files injected into a deck whose anchor
occurs after a 7-character head end up as two directive lines directly
after the anchor, in reverse mapping order. -/
theorem claim_C9_injection_witness :
    inject ("uvspec\n".toList ++ anchorWord ++ "\nquiet".toList)
        [("mol1".toList, "tmpA".toList), ("mol2".toList, "tmpB".toList)] =
      "uvspec\n".toList ++ anchorWord ++
        ([("mol1".toList, "tmpA".toList),
          ("mol2".toList, "tmpB".toList)].reverse.map
            fun q => directiveLine q.1 q.2).flatten ++ "\nquiet".toList :=
  claim_C9_injection "uvspec\n".toList "\nquiet".toList
    [("mol1".toList, "tmpA".toList), ("mol2".toList, "tmpB".toList)]
    (by decide)
